import Mathlib

/-!
Verification of the explicit finite-difference heat-equation solvers in
`heat_eq_fr.py`, `heat_equation.py` and `stability_analysis.py`.

The numerics are modelled over an arbitrary linear ordered field (so the
same definitions can be read over `ℚ`, where everything is computable, and
over `ℝ`, where the `tanh` initial profiles live).  numpy arrays are
modelled as lists (when a shape is observable) or as index functions
`ℕ → α` (when only entries are observable); `np.linspace` is modelled
exactly.
-/

section Core

variable {α : Type*} [LinearOrderedField α]

/-- Model of `np.linspace(a, b, n)`: `n` evenly spaced samples from `a` to
`b` inclusive, sample `i` being `a + (b - a) * i / (n - 1)`. -/
def linspace (a b : α) (n : ℕ) : List α :=
  (List.range n).map fun i : ℕ => a + (b - a) * (i : α) / ((n : α) - 1)

/-- The single row update shared by `explicit_heat` (heat_eq_fr.py, lines
46-50) and the loop body of `solve_heat_equation_euler` (heat_equation.py,
lines 82-88): the interior slice `1:-1` receives the central-difference
stencil read from the previous row, then index `0` is overwritten with `U1`
and index `Nx-1` with `U2`.  The check for `Nx - 1` comes first because in
the source the write `U_new[-1] = U2` happens last and therefore wins. -/
def stepRow (r U1 U2 : α) (Nx : ℕ) (U : ℕ → α) : ℕ → α := fun i =>
  if i = Nx - 1 then U2
  else if i = 0 then U1
  else if i < Nx - 1 then U i + r * (U (i + 1) - 2 * U i + U (i - 1))
  else U i

/-- Row `n` of the temperature field: row `0` is the initial profile as
passed in (the sources assign it verbatim, `U_all[0, :] = U_init.copy()`
resp. `U[0, :] = U0`, with no boundary overwrite), and each later row is
`stepRow` applied to its predecessor. -/
def heatField (r U1 U2 : α) (Nx : ℕ) (U0 : ℕ → α) : ℕ → ℕ → α
  | 0 => U0
  | n + 1 => stepRow r U1 U2 Nx (heatField r U1 U2 Nx U0 n)

end Core

namespace HeatEqFr

/-! Embedding of `heat_eq_fr.py`.  Module-level constants are exact
rationals (`0.05 = 1/20` etc.); the plotting and animation code is out of
scope per the design notes. -/

def L : ℚ := 1.0

def T : ℚ := 1.0

def D : ℚ := 0.05

def Nx : ℕ := 100

def Nt : ℕ := 1500

def Nt_unstable : ℕ := 50

/-- `x = np.linspace(0, L, Nx)`. -/
def x : List ℚ := linspace 0 L Nx

/-- `dx = x[1] - x[0]` (module level, used by the stability loop). -/
def dx : ℚ := x.getD 1 0 - x.getD 0 0

def A : ℚ := 10.0

def B : ℚ := 10.0

/-- `U1 = A + B`. -/
def U1 : ℚ := A + B

/-- `U2 = A - B`. -/
def U2 : ℚ := A - B

/-- `initial_profile(x) = A - B * np.tanh((x - L/2) / scale)` with
`scale = 0.1`, reading the module globals `A`, `B`, `L`. -/
noncomputable def initial_profile (xv : ℝ) : ℝ :=
  let scale : ℝ := 0.1
  (A : ℝ) - (B : ℝ) * Real.tanh ((xv - (L : ℝ) / 2) / scale)

/-- `U0 = initial_profile(x)` (the profile evaluated on the whole grid). -/
noncomputable def U0 : List ℝ := x.map fun xi => initial_profile (xi : ℝ)

/-- `explicit_heat(U_init, Nx, Nt, L, T, D, U1, U2)` returning
`(U_all, alpha, dt)`.  Row `n` of `U_all` is `heatField … n` restricted to
indices `< Nx`; row `0` is `U_init` verbatim and each later row is the
slice update followed by the two boundary writes, exactly as in the loop
body (lines 45-52). -/
def explicit_heat {α : Type*} [LinearOrderedField α]
    (U_init : ℕ → α) (Nx Nt : ℕ) (L T D U1 U2 : α) :
    List (List α) × α × α :=
  let dx := L / ((Nx : α) - 1)
  let dt := T / (Nt : α)
  let alpha := D * dt / dx ^ 2
  ((List.range (Nt + 1)).map fun n =>
      (List.range Nx).map (heatField alpha U1 U2 Nx U_init n),
   alpha, dt)

/-- `np.ndarray.copy()`: allocates a fresh buffer holding the same
contents (so later writes to the copy never reach the original). -/
def npCopy {α : Type*} (f : ℕ → α) : ℕ → α := fun i => f i

/-- The mutable locals of one call of `explicit_heat`, with the buffer of
the caller's `U_init` argument tracked explicitly so that writes to it (if
the body performed any) would be visible. -/
structure CallState (α : Type*) where
  uInitBuf : ℕ → α
  u : ℕ → α
  uAll : List (ℕ → α)

/-- One iteration of the `for n in range(Nt)` loop of `explicit_heat`:
`U_new = U.copy()`, the slice update and the two boundary writes into
`U_new` (together `stepRow`), `U_all[n+1] = U_new`, `U = U_new`.  No
statement writes into the caller's buffer. -/
def loopBody {α : Type*} [LinearOrderedField α]
    (alpha U1 U2 : α) (Nx : ℕ) (s : CallState α) : CallState α :=
  let uNew := stepRow alpha U1 U2 Nx (npCopy s.u)
  { uInitBuf := s.uInitBuf, u := uNew, uAll := s.uAll ++ [uNew] }

/-- Statement-level embedding of a call of `explicit_heat`, returning the
caller's `U_init` buffer as it stands after the call, together with the
function result.  `U_all[0, :] = U_init.copy()` and `U = U_init.copy()`
seed the state; the loop then runs `Nt` times. -/
def explicit_heat_call {α : Type*} [LinearOrderedField α]
    (U_init : ℕ → α) (Nx Nt : ℕ) (L T D U1 U2 : α) :
    (ℕ → α) × (List (List α) × α × α) :=
  let dx := L / ((Nx : α) - 1)
  let dt := T / (Nt : α)
  let alpha := D * dt / dx ^ 2
  let s0 : CallState α :=
    { uInitBuf := U_init, u := npCopy U_init, uAll := [npCopy U_init] }
  let sF := (loopBody alpha U1 U2 Nx)^[Nt] s0
  (sF.uInitBuf, (sF.uAll.map fun row => (List.range Nx).map row, alpha, dt))

/-- The `Nt_list` of the stability verification loop (lines 121-127). -/
def Nt_list : List ℕ := [50, 200, 500, 1000, 1500, 3000]

/-- `alpha = D * dt / dx**2` as computed inside the verification loop for
a given `Nt_val`, with the module-level `dx = x[1] - x[0]`. -/
def loop_alpha (Nt_val : ℕ) : ℚ := D * (T / (Nt_val : ℚ)) / dx ^ 2

/-- The verdict printed by the verification loop: `'(Stable)' if
alpha < 0.5 else '(Instable)'` — note the strict comparison. -/
def loop_verdict (Nt_val : ℕ) : Bool := decide (loop_alpha Nt_val < 0.5)

end HeatEqFr

namespace HeatEquation

/-! Embedding of `heat_equation.py`.  The plotting helpers and `main` are
out of scope; `main`'s parameter calculation is not needed by any claim. -/

/-- `initialize_conditions(Nx, L)` (name shortened): builds
`x = np.linspace(0, L, Nx)` and `U0 = A - B*np.tanh(c - x)` with
`A = 10`, `B = 10`, `c = 0`, returning `(x, U0, A, B)`. -/
noncomputable def init_conditions (Nx : ℕ) (L : ℝ) : List ℝ × List ℝ × ℝ × ℝ :=
  let A : ℝ := 10
  let B : ℝ := 10
  let c : ℝ := 0
  let x := linspace 0 L Nx
  let U0 := x.map fun xi => A - B * Real.tanh (c - xi)
  (x, U0, A, B)

/-- `check_stability(D, T, Nt, Nx, L)`: `dt = T/Nt`, `dx = L/Nx`,
`stability_factor = D*dt/dx**2`, `is_stable = stability_factor <= 0.5`;
returns `(is_stable, stability_factor)`.  Modelled over `ℚ` so the
comparison is computable. -/
def check_stability (D T : ℚ) (Nt Nx : ℕ) (L : ℚ) : Bool × ℚ :=
  let dt := T / (Nt : ℚ)
  let dx := L / (Nx : ℚ)
  let stability_factor := D * dt / dx ^ 2
  (decide (stability_factor ≤ 0.5), stability_factor)

/-- `solve_heat_equation_euler(L, T, D, Nt, Nx)` returning `(x, t, U)`.
Row `0` of `U` is `U0` verbatim; each later row is the vectorized interior
update from the previous row followed by the boundary writes `A + B` and
`A - B` (lines 82-88), i.e. `stepRow r (A+B) (A-B) Nx`.  The
`check_stability` call in the body only prints and its results are unused,
so it is not threaded here. -/
noncomputable def solve_heat_equation_euler (L T D : ℝ) (Nt Nx : ℕ) :
    List ℝ × List ℝ × List (List ℝ) :=
  let ic := init_conditions Nx L
  let U0 := ic.2.1
  let A := ic.2.2.1
  let B := ic.2.2.2
  let dt := T / (Nt : ℝ)
  let dx := L / (Nx : ℝ)
  let r := D * dt / dx ^ 2
  let U := (List.range (Nt + 1)).map fun n =>
    (List.range Nx).map (heatField r (A + B) (A - B) Nx (fun i => U0.getD i 0) n)
  let t := linspace 0 T (Nt + 1)
  (ic.1, t, U)

end HeatEquation

namespace StabilityAnalysis

/-! Embedding of `stability_analysis.py`. -/

/-- The step count recommended inside `analyze_stability` when `r > 0.5`:
`Nt_required = int(np.ceil(2 * D * T * Nx**2 / L**2))`. -/
def Nt_required (L T D : ℚ) (Nx : ℕ) : ℤ :=
  Int.ceil (2 * D * T * (Nx : ℚ) ^ 2 / L ^ 2)

/-- `analyze_stability(L, T, D, Nt, Nx)`: computes `r = D*dt/dx**2` with
`dt = T/Nt`, `dx = L/Nx` and returns `r <= 0.5` (the printed verdict is
`STABLE` exactly when this holds). -/
def analyze_stability (L T D : ℚ) (Nt Nx : ℕ) : Bool :=
  let dt := T / (Nt : ℚ)
  let dx := L / (Nx : ℚ)
  let r := D * dt / dx ^ 2
  decide (r ≤ 0.5)

end StabilityAnalysis

theorem getD_map_range {β : Type*} (f : ℕ → β) (n i : ℕ) (d : β) (h : i < n) :
    (((List.range n).map f).getD i d) = f i := by
  rw [List.getD_eq_getElem?_getD, List.getElem?_map, List.getElem?_range h]
  rfl

section FieldLemmas

variable {α : Type*} [LinearOrderedField α]

theorem heatField_zero (r U1 U2 : α) (Nx : ℕ) (U0 : ℕ → α) (i : ℕ) :
    heatField r U1 U2 Nx U0 0 i = U0 i := rfl

theorem heatField_succ_left (r U1 U2 : α) (Nx : ℕ) (U0 : ℕ → α) (n : ℕ)
    (h : 2 ≤ Nx) : heatField r U1 U2 Nx U0 (n + 1) 0 = U1 := by
  show stepRow r U1 U2 Nx (heatField r U1 U2 Nx U0 n) 0 = U1
  unfold stepRow
  rw [if_neg (by omega), if_pos rfl]

theorem heatField_succ_right (r U1 U2 : α) (Nx : ℕ) (U0 : ℕ → α) (n : ℕ) :
    heatField r U1 U2 Nx U0 (n + 1) (Nx - 1) = U2 := by
  show stepRow r U1 U2 Nx (heatField r U1 U2 Nx U0 n) (Nx - 1) = U2
  unfold stepRow
  rw [if_pos rfl]

theorem heatField_succ_interior (r U1 U2 : α) (Nx : ℕ) (U0 : ℕ → α) (n i : ℕ)
    (h1 : 1 ≤ i) (h2 : i < Nx - 1) :
    heatField r U1 U2 Nx U0 (n + 1) i =
      heatField r U1 U2 Nx U0 n i +
        r * (heatField r U1 U2 Nx U0 n (i + 1) -
          2 * heatField r U1 U2 Nx U0 n i + heatField r U1 U2 Nx U0 n (i - 1)) := by
  show stepRow r U1 U2 Nx (heatField r U1 U2 Nx U0 n) i = _
  unfold stepRow
  rw [if_neg (by omega), if_neg (by omega), if_pos h2]

theorem stepRow_bounds {r U1 U2 m M : α} {Nx : ℕ} {U : ℕ → α}
    (hr0 : 0 ≤ r) (hr : r ≤ 1 / 2)
    (h1 : m ≤ U1) (h1' : U1 ≤ M) (h2 : m ≤ U2) (h2' : U2 ≤ M)
    (hU : ∀ i < Nx, m ≤ U i ∧ U i ≤ M) :
    ∀ i < Nx, m ≤ stepRow r U1 U2 Nx U i ∧ stepRow r U1 U2 Nx U i ≤ M := by
  intro i hi
  unfold stepRow
  split_ifs with hR hL hI
  · exact ⟨h2, h2'⟩
  · exact ⟨h1, h1'⟩
  · obtain ⟨ha, ha'⟩ := hU i hi
    obtain ⟨hb, hb'⟩ := hU (i + 1) (by omega)
    obtain ⟨hc, hc'⟩ := hU (i - 1) (by omega)
    constructor
    · have e1 : 0 ≤ (1 - 2 * r) * (U i - m) :=
        mul_nonneg (by linarith) (by linarith)
      have e2 : 0 ≤ r * (U (i + 1) - m) := mul_nonneg hr0 (by linarith)
      have e3 : 0 ≤ r * (U (i - 1) - m) := mul_nonneg hr0 (by linarith)
      have key : (1 - 2 * r) * (U i - m) + r * (U (i + 1) - m) + r * (U (i - 1) - m)
          = U i + r * (U (i + 1) - 2 * U i + U (i - 1)) - m := by ring
      linarith [e1, e2, e3, key]
    · have e1 : 0 ≤ (1 - 2 * r) * (M - U i) :=
        mul_nonneg (by linarith) (by linarith)
      have e2 : 0 ≤ r * (M - U (i + 1)) := mul_nonneg hr0 (by linarith)
      have e3 : 0 ≤ r * (M - U (i - 1)) := mul_nonneg hr0 (by linarith)
      have key : (1 - 2 * r) * (M - U i) + r * (M - U (i + 1)) + r * (M - U (i - 1))
          = M - (U i + r * (U (i + 1) - 2 * U i + U (i - 1))) := by ring
      linarith [e1, e2, e3, key]
  · exact hU i hi

theorem heatField_bounds {r U1 U2 m M : α} {Nx : ℕ} {U0 : ℕ → α}
    (hr0 : 0 ≤ r) (hr : r ≤ 1 / 2)
    (h1 : m ≤ U1) (h1' : U1 ≤ M) (h2 : m ≤ U2) (h2' : U2 ≤ M)
    (hU0 : ∀ i < Nx, m ≤ U0 i ∧ U0 i ≤ M) :
    ∀ n, ∀ i < Nx, m ≤ heatField r U1 U2 Nx U0 n i ∧ heatField r U1 U2 Nx U0 n i ≤ M := by
  intro n
  induction n with
  | zero => exact hU0
  | succ n ih => exact stepRow_bounds hr0 hr h1 h1' h2 h2' ih

theorem explicit_heat_entry (U_init : ℕ → α) (Nx Nt : ℕ) (L T D U1 U2 : α)
    (n i : ℕ) (hn : n ≤ Nt) (hi : i < Nx) :
    (((HeatEqFr.explicit_heat U_init Nx Nt L T D U1 U2).1.getD n []).getD i 0) =
      heatField (D * (T / (Nt : α)) / (L / ((Nx : α) - 1)) ^ 2) U1 U2 Nx U_init n i := by
  show ((((List.range (Nt + 1)).map fun k =>
      (List.range Nx).map
        (heatField (D * (T / (Nt : α)) / (L / ((Nx : α) - 1)) ^ 2) U1 U2 Nx U_init k)).getD
      n []).getD i 0) = _
  rw [getD_map_range _ _ _ _ (by omega), getD_map_range _ _ _ _ hi]

theorem solve_entry (L T D : ℝ) (Nt Nx : ℕ) (n i : ℕ) (hn : n ≤ Nt) (hi : i < Nx) :
    (((HeatEquation.solve_heat_equation_euler L T D Nt Nx).2.2.getD n []).getD i 0) =
      heatField (D * (T / (Nt : ℝ)) / (L / (Nx : ℝ)) ^ 2) (10 + 10) (10 - 10) Nx
        (fun j => (HeatEquation.init_conditions Nx L).2.1.getD j 0) n i := by
  show ((((List.range (Nt + 1)).map fun k =>
      (List.range Nx).map
        (heatField (D * (T / (Nt : ℝ)) / (L / (Nx : ℝ)) ^ 2) (10 + 10) (10 - 10) Nx
          (fun j => (HeatEquation.init_conditions Nx L).2.1.getD j 0) k)).getD
      n []).getD i 0) = _
  rw [getD_map_range _ _ _ _ (by omega), getD_map_range _ _ _ _ hi]

end FieldLemmas

/-- Claim C1 (amended): in every run of `explicit_heat` or
`solve_heat_equation_euler` with `Nt ≥ 1`, `Nx ≥ 3`, every row `n` with
`1 ≤ n ≤ Nt` has `field[n][0] = U_left` and `field[n][Nx-1] = U_right`
exactly; row `0` is the initial profile verbatim (no boundary overwrite),
so its endpoints equal the boundary constants only if the profile's do. -/
theorem boundary_rows_from_one
    (U_init : ℕ → ℝ) (Nx Nt : ℕ) (L T D U1 U2 : ℝ)
    (L2 T2 D2 : ℝ) (Nt2 Nx2 : ℕ)
    (hNx : 3 ≤ Nx) (hNt : 1 ≤ Nt) (hNx2 : 3 ≤ Nx2) (hNt2 : 1 ≤ Nt2) :
    (∀ n, 1 ≤ n → n ≤ Nt →
      ((HeatEqFr.explicit_heat U_init Nx Nt L T D U1 U2).1.getD n []).getD 0 0 = U1 ∧
        ((HeatEqFr.explicit_heat U_init Nx Nt L T D U1 U2).1.getD n []).getD (Nx - 1) 0 = U2) ∧
    (∀ i < Nx,
      ((HeatEqFr.explicit_heat U_init Nx Nt L T D U1 U2).1.getD 0 []).getD i 0 = U_init i) ∧
    (∀ n, 1 ≤ n → n ≤ Nt2 →
      ((HeatEquation.solve_heat_equation_euler L2 T2 D2 Nt2 Nx2).2.2.getD n []).getD 0 0 = 20 ∧
        ((HeatEquation.solve_heat_equation_euler L2 T2 D2 Nt2 Nx2).2.2.getD n []).getD
          (Nx2 - 1) 0 = 0) := by
  refine ⟨?_, ?_, ?_⟩
  · intro n h1 h2
    obtain ⟨m, rfl⟩ : ∃ m, n = m + 1 := ⟨n - 1, by omega⟩
    rw [explicit_heat_entry _ _ _ _ _ _ _ _ _ _ h2 (by omega),
      explicit_heat_entry _ _ _ _ _ _ _ _ _ _ h2 (by omega)]
    exact ⟨heatField_succ_left _ _ _ _ _ _ (by omega), heatField_succ_right _ _ _ _ _ _⟩
  · intro i hi
    rw [explicit_heat_entry _ _ _ _ _ _ _ _ _ _ (by omega) hi]
    rfl
  · intro n h1 h2
    obtain ⟨m, rfl⟩ : ∃ m, n = m + 1 := ⟨n - 1, by omega⟩
    rw [solve_entry _ _ _ _ _ _ _ h2 (by omega), solve_entry _ _ _ _ _ _ _ h2 (by omega)]
    rw [heatField_succ_left _ _ _ _ _ _ (by omega), heatField_succ_right _ _ _ _ _ _]
    norm_num

/-- Claim C1, counterexample to the claim as stated: row 0 is NOT given
the boundary constants.  With valid parameters `Nx = 3`, `Nt = 1`,
`U_left = 20` and the initial profile constantly `0`, the returned field
has `field[0][0] = 0 ≠ 20 = U_left`. -/
theorem row_zero_boundary_fails :
    ((HeatEqFr.explicit_heat (fun _ => (0 : ℚ)) 3 1 1 1 (1 / 20) 20 0).1.getD 0 []).getD 0 0
        = 0 ∧ (0 : ℚ) ≠ 20 := by
  constructor
  · rw [explicit_heat_entry _ _ _ _ _ _ _ _ _ _ (by omega) (by omega)]
    rfl
  · norm_num

/-- Claim C1, witness: the amended theorem applied to a concrete run. -/
theorem boundary_rows_from_one_inst :
    ((3:ℕ) ≤ 3 ∧ (1:ℕ) ≤ 1) ∧
    (((HeatEqFr.explicit_heat (fun _ => (5 : ℝ)) 3 1 1 1 1 20 0).1.getD 1 []).getD 0 0 = 20 ∧
      ((HeatEqFr.explicit_heat (fun _ => (5 : ℝ)) 3 1 1 1 1 20 0).1.getD 1 []).getD 2 0 = 0) :=
  ⟨⟨le_refl 3, le_refl 1⟩,
    (boundary_rows_from_one (fun _ => (5 : ℝ)) 3 1 1 1 1 20 0 1 1 1 1 3
      (le_refl 3) (le_refl 1) (le_refl 3) (le_refl 1)).1 1 (le_refl 1) (le_refl 1)⟩

theorem getD_eq_getElem_of_lt {β : Type*} (l : List β) (d : β) (i : ℕ)
    (h : i < l.length) : l.getD i d = l[i] := by
  rw [List.getD_eq_getElem?_getD, List.getElem?_eq_getElem h]
  rfl

/-- Entry `i` of the `U0` built by `initialize_conditions`:
`A - B*tanh(c - x_i)` with `A = B = 10`, `c = 0` and
`x_i = 0 + (L - 0)·i/(Nx - 1)` the `linspace` sample. -/
theorem init_conditions_U0_getD (Nx : ℕ) (L : ℝ) (i : ℕ) (h : i < Nx) :
    (HeatEquation.init_conditions Nx L).2.1.getD i 0
      = 10 - 10 * Real.tanh (0 - (0 + (L - 0) * (i : ℝ) / ((Nx : ℝ) - 1))) := by
  show (((List.range Nx).map fun k : ℕ => (0 : ℝ) + (L - 0) * (k : ℝ) / ((Nx : ℝ) - 1)).map
      fun xi => (10 : ℝ) - 10 * Real.tanh ((0 : ℝ) - xi)).getD i 0 = _
  rw [List.map_map, getD_map_range _ _ _ _ h]
  rfl

/-- Claim C5 (amended): row `0` of the returned field equals the initial
profile evaluated on the spatial grid exactly, with NO boundary overwrite
at the two endpoint samples: `explicit_heat` stores `U_init` verbatim and
`solve_heat_equation_euler` stores the `initialize_conditions` profile
verbatim. -/
theorem row_zero_is_profile
    (U_init : ℕ → ℝ) (Nx Nt : ℕ) (L T D U1 U2 : ℝ)
    (L2 T2 D2 : ℝ) (Nt2 Nx2 : ℕ) :
    (HeatEqFr.explicit_heat U_init Nx Nt L T D U1 U2).1.getD 0 []
        = (List.range Nx).map U_init ∧
      (HeatEquation.solve_heat_equation_euler L2 T2 D2 Nt2 Nx2).2.2.getD 0 []
        = (HeatEquation.init_conditions Nx2 L2).2.1 := by
  constructor
  · show (((List.range (Nt + 1)).map fun n =>
        (List.range Nx).map
          (heatField (D * (T / (Nt : ℝ)) / (L / ((Nx : ℝ) - 1)) ^ 2) U1 U2 Nx U_init n)).getD
        0 []) = _
    rw [getD_map_range _ _ _ _ (by omega)]
    exact List.map_congr_left fun i _ => heatField_zero _ _ _ _ _ _
  · show (((List.range (Nt2 + 1)).map fun n =>
        (List.range Nx2).map
          (heatField (D2 * (T2 / (Nt2 : ℝ)) / (L2 / (Nx2 : ℝ)) ^ 2) (10 + 10) (10 - 10) Nx2
            (fun j => (HeatEquation.init_conditions Nx2 L2).2.1.getD j 0) n)).getD
        0 []) = _
    rw [getD_map_range _ _ _ _ (by omega)]
    have hlen : (HeatEquation.init_conditions Nx2 L2).2.1.length = Nx2 := by
      show (((List.range Nx2).map fun k : ℕ =>
          (0 : ℝ) + (L2 - 0) * (k : ℝ) / ((Nx2 : ℝ) - 1)).map
          fun xi => (10 : ℝ) - 10 * Real.tanh ((0 : ℝ) - xi)).length = Nx2
      simp
    refine List.ext_getElem (by rw [List.length_map, List.length_range, hlen]) ?_
    intro i h1 h2
    have hi : i < Nx2 := by simpa using h1
    rw [List.getElem_map, List.getElem_range]
    rw [heatField_zero, getD_eq_getElem_of_lt _ _ _ (by rw [hlen]; exact hi)]

/-- Claim C5, counterexample to the claim as stated: row 0 does NOT get
the boundary constants applied at the endpoints.  For
`solve_heat_equation_euler(L=1, T=1, D=1/20, Nt=1, Nx=3)` the profile at
the left endpoint is `10 - 10·tanh(0) = 10`, and that is what row 0
stores, while the boundary constant there is `A + B = 20`. -/
theorem row_zero_no_boundary_overwrite :
    ((HeatEquation.solve_heat_equation_euler 1 1 (1 / 20) 1 3).2.2.getD 0 []).getD 0 0 = 10 ∧
      (10 : ℝ) ≠ 20 := by
  constructor
  · rw [solve_entry _ _ _ _ _ _ _ (by omega) (by omega), heatField_zero,
      init_conditions_U0_getD _ _ _ (by omega)]
    norm_num [Real.tanh_zero]
  · norm_num

/-- Claim C2: for every time step `n < Nt` and interior index
`1 ≤ i ≤ Nx-2`, both steppers compute
`U[n+1][i] = U[n][i] + r·(U[n][i+1] - 2·U[n][i] + U[n][i-1])` with
`r = D·dt/dx²` (each with its own `dx` convention), and then set
`U[n+1][0] = U_left` and `U[n+1][Nx-1] = U_right`; together these cover
every index of row `n+1`, so no other rule is applied. -/
theorem update_rule_exact
    (U_init : ℕ → ℝ) (Nx Nt : ℕ) (L T D U1 U2 : ℝ)
    (L2 T2 D2 : ℝ) (Nt2 Nx2 : ℕ) (hNx : 3 ≤ Nx) (hNx2 : 3 ≤ Nx2) :
    (∀ n < Nt, ∀ i, 1 ≤ i → i ≤ Nx - 2 →
      ((HeatEqFr.explicit_heat U_init Nx Nt L T D U1 U2).1.getD (n + 1) []).getD i 0 =
        ((HeatEqFr.explicit_heat U_init Nx Nt L T D U1 U2).1.getD n []).getD i 0 +
          D * (T / (Nt : ℝ)) / (L / ((Nx : ℝ) - 1)) ^ 2 *
            (((HeatEqFr.explicit_heat U_init Nx Nt L T D U1 U2).1.getD n []).getD (i + 1) 0 -
              2 * ((HeatEqFr.explicit_heat U_init Nx Nt L T D U1 U2).1.getD n []).getD i 0 +
              ((HeatEqFr.explicit_heat U_init Nx Nt L T D U1 U2).1.getD n []).getD (i - 1) 0)) ∧
    (∀ n < Nt,
      ((HeatEqFr.explicit_heat U_init Nx Nt L T D U1 U2).1.getD (n + 1) []).getD 0 0 = U1 ∧
      ((HeatEqFr.explicit_heat U_init Nx Nt L T D U1 U2).1.getD (n + 1) []).getD (Nx - 1) 0
        = U2) ∧
    (∀ n < Nt2, ∀ i, 1 ≤ i → i ≤ Nx2 - 2 →
      ((HeatEquation.solve_heat_equation_euler L2 T2 D2 Nt2 Nx2).2.2.getD (n + 1) []).getD i 0 =
        ((HeatEquation.solve_heat_equation_euler L2 T2 D2 Nt2 Nx2).2.2.getD n []).getD i 0 +
          D2 * (T2 / (Nt2 : ℝ)) / (L2 / (Nx2 : ℝ)) ^ 2 *
            (((HeatEquation.solve_heat_equation_euler L2 T2 D2 Nt2 Nx2).2.2.getD n []).getD
                (i + 1) 0 -
              2 * ((HeatEquation.solve_heat_equation_euler L2 T2 D2 Nt2 Nx2).2.2.getD n
                []).getD i 0 +
              ((HeatEquation.solve_heat_equation_euler L2 T2 D2 Nt2 Nx2).2.2.getD n []).getD
                (i - 1) 0)) ∧
    (∀ n < Nt2,
      ((HeatEquation.solve_heat_equation_euler L2 T2 D2 Nt2 Nx2).2.2.getD (n + 1) []).getD 0 0
          = 20 ∧
        ((HeatEquation.solve_heat_equation_euler L2 T2 D2 Nt2 Nx2).2.2.getD (n + 1) []).getD
          (Nx2 - 1) 0 = 0) := by
  refine ⟨?_, ?_, ?_, ?_⟩
  · intro n hn i h1 h2
    rw [explicit_heat_entry _ _ _ _ _ _ _ _ _ _ (by omega) (by omega),
      explicit_heat_entry _ _ _ _ _ _ _ _ _ _ (by omega) (by omega),
      explicit_heat_entry _ _ _ _ _ _ _ _ _ _ (by omega) (by omega),
      explicit_heat_entry _ _ _ _ _ _ _ _ _ _ (by omega) (by omega)]
    exact heatField_succ_interior _ _ _ _ _ _ _ h1 (by omega)
  · intro n hn
    rw [explicit_heat_entry _ _ _ _ _ _ _ _ _ _ (by omega) (by omega),
      explicit_heat_entry _ _ _ _ _ _ _ _ _ _ (by omega) (by omega)]
    exact ⟨heatField_succ_left _ _ _ _ _ _ (by omega), heatField_succ_right _ _ _ _ _ _⟩
  · intro n hn i h1 h2
    rw [solve_entry _ _ _ _ _ _ _ (by omega) (by omega),
      solve_entry _ _ _ _ _ _ _ (by omega) (by omega),
      solve_entry _ _ _ _ _ _ _ (by omega) (by omega),
      solve_entry _ _ _ _ _ _ _ (by omega) (by omega)]
    exact heatField_succ_interior _ _ _ _ _ _ _ h1 (by omega)
  · intro n hn
    rw [solve_entry _ _ _ _ _ _ _ (by omega) (by omega),
      solve_entry _ _ _ _ _ _ _ (by omega) (by omega)]
    rw [heatField_succ_left _ _ _ _ _ _ (by omega), heatField_succ_right _ _ _ _ _ _]
    norm_num

/-- Claim C2, witness: the update rule applied to one concrete interior
entry of a concrete run. -/
theorem update_rule_exact_inst :
    (3 : ℕ) ≤ 3 ∧
    ((HeatEqFr.explicit_heat (fun j => (j : ℝ)) 3 1 1 1 1 20 0).1.getD (0 + 1) []).getD 1 0 =
      ((HeatEqFr.explicit_heat (fun j => (j : ℝ)) 3 1 1 1 1 20 0).1.getD 0 []).getD 1 0 +
        (1 : ℝ) * (1 / ((1 : ℕ) : ℝ)) / (1 / (((3 : ℕ) : ℝ) - 1)) ^ 2 *
          (((HeatEqFr.explicit_heat (fun j => (j : ℝ)) 3 1 1 1 1 20 0).1.getD 0 []).getD
              (1 + 1) 0 -
            2 * ((HeatEqFr.explicit_heat (fun j => (j : ℝ)) 3 1 1 1 1 20 0).1.getD 0 []).getD
              1 0 +
            ((HeatEqFr.explicit_heat (fun j => (j : ℝ)) 3 1 1 1 1 20 0).1.getD 0 []).getD
              (1 - 1) 0) :=
  ⟨le_refl 3,
    (update_rule_exact (fun j => (j : ℝ)) 3 1 1 1 1 20 0 1 1 1 1 3
        (le_refl 3) (le_refl 3)).1 0 (by omega) 1 (by omega) (by omega)⟩

/-- The module-level grid spacing of `heat_eq_fr.py`:
`dx = x[1] - x[0] = 1/99` exactly. -/
theorem fr_dx_eq : HeatEqFr.dx = 1 / 99 := by
  unfold HeatEqFr.dx HeatEqFr.x linspace
  rw [getD_map_range _ _ _ _ (by norm_num [HeatEqFr.Nx]),
    getD_map_range _ _ _ _ (by norm_num [HeatEqFr.Nx])]
  norm_num [HeatEqFr.L, HeatEqFr.Nx]

/-- The ratio computed by the `heat_eq_fr.py` verification loop:
`alpha = D·(T/Nt)/dx² = 9801/(20·Nt)` with the module constants. -/
theorem fr_loop_alpha_eq (n : ℕ) (hn : 1 ≤ n) :
    HeatEqFr.loop_alpha n = 9801 / (20 * (n : ℚ)) := by
  have hn0 : ((n : ℚ)) ≠ 0 := Nat.cast_ne_zero.mpr (by omega)
  unfold HeatEqFr.loop_alpha
  rw [fr_dx_eq]
  rw [show HeatEqFr.D = 1 / 20 by norm_num [HeatEqFr.D],
    show HeatEqFr.T = 1 by norm_num [HeatEqFr.T]]
  field_simp
  ring

/-- Claim C3: the stable/unstable verdicts.  `check_stability` and
`analyze_stability` report stable exactly when `r = D·(T/Nt)/(L/Nx)² ≤ 1/2`
(so `r` exactly `1/2` is stable there); the `heat_eq_fr.py` verification
loop prints `Stable` on the strict test `alpha < 1/2`, but its ratio
`9801/(20·Nt)` never equals `1/2` at an integer `Nt ≥ 1`, so its verdict
also agrees with the `≤ 1/2` rule on every input.  For
`L=1, T=1, D=0.05, Nx=100`: `Nt = 1000` is classified stable (with
`check_stability` factor exactly `1/2`) and `Nt = 50` unstable, under both
classifiers. -/
theorem stability_classification :
    (∀ (D T : ℚ) (Nt Nx : ℕ) (L : ℚ),
      (HeatEquation.check_stability D T Nt Nx L).1 = true ↔
        D * (T / (Nt : ℚ)) / (L / (Nx : ℚ)) ^ 2 ≤ 1 / 2) ∧
    (∀ (L T D : ℚ) (Nt Nx : ℕ),
      StabilityAnalysis.analyze_stability L T D Nt Nx = true ↔
        D * (T / (Nt : ℚ)) / (L / (Nx : ℚ)) ^ 2 ≤ 1 / 2) ∧
    (∀ n : ℕ, 1 ≤ n →
      (HeatEqFr.loop_verdict n = true ↔ HeatEqFr.loop_alpha n ≤ 1 / 2)) ∧
    ((HeatEquation.check_stability 0.05 1 1000 100 1).1 = true ∧
      (HeatEquation.check_stability 0.05 1 1000 100 1).2 = 1 / 2) ∧
    (HeatEquation.check_stability 0.05 1 50 100 1).1 = false ∧
    HeatEqFr.loop_verdict 1000 = true ∧
    HeatEqFr.loop_verdict 50 = false := by
  refine ⟨?_, ?_, ?_, ⟨?_, ?_⟩, ?_, ?_, ?_⟩
  · intro D T Nt Nx L
    simp only [HeatEquation.check_stability, decide_eq_true_eq]
    norm_num
  · intro L T D Nt Nx
    simp only [StabilityAnalysis.analyze_stability, decide_eq_true_eq]
    norm_num
  · intro n hn
    have hne : HeatEqFr.loop_alpha n ≠ 1 / 2 := by
      rw [fr_loop_alpha_eq n hn]
      intro h
      have hn0 : ((n : ℚ)) ≠ 0 := Nat.cast_ne_zero.mpr (by omega)
      rw [div_eq_div_iff (by positivity) (by norm_num)] at h
      have : (20 * (n : ℚ)) = 19602 := by linarith
      have hcast : ((20 * n : ℕ) : ℚ) = ((19602 : ℕ) : ℚ) := by push_cast; linarith
      have : (20 * n : ℕ) = 19602 := Nat.cast_injective hcast
      omega
    simp only [HeatEqFr.loop_verdict, decide_eq_true_eq]
    constructor
    · intro h
      have : HeatEqFr.loop_alpha n < 1 / 2 := by exact_mod_cast by norm_num at h ⊢; exact h
      linarith
    · intro h
      have : HeatEqFr.loop_alpha n < 1 / 2 := lt_of_le_of_ne h hne
      norm_num
      linarith
  · simp only [HeatEquation.check_stability, decide_eq_true_eq]
    norm_num
  · simp only [HeatEquation.check_stability]
    norm_num
  · simp only [HeatEquation.check_stability, decide_eq_false_iff_not]
    norm_num
  · simp only [HeatEqFr.loop_verdict, decide_eq_true_eq]
    rw [fr_loop_alpha_eq 1000 (by omega)]
    norm_num
  · simp only [HeatEqFr.loop_verdict, decide_eq_false_iff_not]
    rw [fr_loop_alpha_eq 50 (by omega)]
    norm_num

/-- Claim C3, witness: the verdict equivalence of the verification loop
applied at the concrete step count `Nt = 1000`. -/
theorem stability_classification_inst :
    (1 : ℕ) ≤ 1000 ∧
      (HeatEqFr.loop_verdict 1000 = true ↔ HeatEqFr.loop_alpha 1000 ≤ 1 / 2) :=
  ⟨by omega, stability_classification.2.2.1 1000 (by omega)⟩

/-- Claim C10: whenever `analyze_stability` finds
`r = D·(T/Nt)/(L/Nx)² > 1/2` (positive `L, T, D`, integers `Nt ≥ 1`,
`Nx ≥ 1`), the recommended step count
`Nt_required = ⌈2·D·T·Nx²/L²⌉` is positive and itself satisfies the
stability condition `D·(T/Nt_required)/(L/Nx)² ≤ 1/2`. -/
theorem recommended_Nt_stable (L T D : ℚ) (Nt Nx : ℕ)
    (hL : 0 < L) (hT : 0 < T) (hD : 0 < D) (hNt : 1 ≤ Nt) (hNx : 1 ≤ Nx)
    (hr : 1 / 2 < D * (T / (Nt : ℚ)) / (L / (Nx : ℚ)) ^ 2) :
    0 < StabilityAnalysis.Nt_required L T D Nx ∧
      D * (T / ((StabilityAnalysis.Nt_required L T D Nx : ℚ))) / (L / (Nx : ℚ)) ^ 2
        ≤ 1 / 2 := by
  have hNt0 : (0 : ℚ) < (Nt : ℚ) := by exact_mod_cast Nat.pos_of_ne_zero (by omega)
  have hNx0 : (0 : ℚ) < (Nx : ℚ) := by exact_mod_cast Nat.pos_of_ne_zero (by omega)
  have hL2 : (0 : ℚ) < L ^ 2 := by positivity
  set S : ℚ := 2 * D * T * (Nx : ℚ) ^ 2 / L ^ 2 with hS
  have key : D * (T / (Nt : ℚ)) / (L / (Nx : ℚ)) ^ 2
      = D * T * (Nx : ℚ) ^ 2 / ((Nt : ℚ) * L ^ 2) := by
    field_simp
  have hNtS : (Nt : ℚ) < S := by
    rw [key] at hr
    rw [lt_div_iff₀ (by positivity : (0 : ℚ) < (Nt : ℚ) * L ^ 2)] at hr
    rw [hS, lt_div_iff₀ hL2]
    nlinarith
  have hceil : S ≤ ((StabilityAnalysis.Nt_required L T D Nx : ℚ)) := by
    unfold StabilityAnalysis.Nt_required
    rw [← hS]
    exact_mod_cast Int.le_ceil S
  have hSpos : (1 : ℚ) ≤ S := by
    have : (1 : ℚ) ≤ (Nt : ℚ) := by exact_mod_cast hNt
    linarith
  have hcpos : (0 : ℚ) < ((StabilityAnalysis.Nt_required L T D Nx : ℚ)) := by linarith
  constructor
  · exact_mod_cast hcpos
  · have key2 : D * (T / ((StabilityAnalysis.Nt_required L T D Nx : ℚ))) / (L / (Nx : ℚ)) ^ 2
        = D * T * (Nx : ℚ) ^ 2 / (((StabilityAnalysis.Nt_required L T D Nx : ℚ)) * L ^ 2) := by
      field_simp
    rw [key2, div_le_iff₀ (by positivity)]
    rw [div_le_iff₀ hL2] at hceil
    nlinarith

/-- Claim C10, witness: the original project parameters
`L=1, T=1, D=0.05, Nt=100, Nx=1500` have `r = 1125 > 1/2`, and the
recommendation is positive (it is `225000`, whose ratio is exactly
`1/2`). -/
theorem recommended_Nt_stable_inst :
    (1 : ℚ) / 2 < (0.05 : ℚ) * (1 / ((100 : ℕ) : ℚ)) / ((1 : ℚ) / ((1500 : ℕ) : ℚ)) ^ 2 ∧
      0 < StabilityAnalysis.Nt_required 1 1 0.05 1500 :=
  ⟨by norm_num,
    (recommended_Nt_stable 1 1 0.05 100 1500 (by norm_num) (by norm_num) (by norm_num)
        (by norm_num) (by norm_num) (by norm_num)).1⟩

theorem explicit_heat_num_rows (U_init : ℕ → ℝ) (Nx Nt : ℕ) (L T D U1 U2 : ℝ) :
    (HeatEqFr.explicit_heat U_init Nx Nt L T D U1 U2).1.length = Nt + 1 := by
  show (((List.range (Nt + 1)).map fun n =>
      (List.range Nx).map
        (heatField (D * (T / (Nt : ℝ)) / (L / ((Nx : ℝ) - 1)) ^ 2) U1 U2 Nx U_init n)).length)
      = Nt + 1
  simp

theorem explicit_heat_row_len (U_init : ℕ → ℝ) (Nx Nt : ℕ) (L T D U1 U2 : ℝ) :
    ∀ row ∈ (HeatEqFr.explicit_heat U_init Nx Nt L T D U1 U2).1, row.length = Nx := by
  intro row hrow
  rw [show (HeatEqFr.explicit_heat U_init Nx Nt L T D U1 U2).1
      = (List.range (Nt + 1)).map fun n =>
        (List.range Nx).map
          (heatField (D * (T / (Nt : ℝ)) / (L / ((Nx : ℝ) - 1)) ^ 2) U1 U2 Nx U_init n)
    from rfl] at hrow
  obtain ⟨n, _, rfl⟩ := List.mem_map.mp hrow
  simp

theorem solve_num_rows (L T D : ℝ) (Nt Nx : ℕ) :
    (HeatEquation.solve_heat_equation_euler L T D Nt Nx).2.2.length = Nt + 1 := by
  show (((List.range (Nt + 1)).map fun n =>
      (List.range Nx).map
        (heatField (D * (T / (Nt : ℝ)) / (L / (Nx : ℝ)) ^ 2) (10 + 10) (10 - 10) Nx
          (fun j => (HeatEquation.init_conditions Nx L).2.1.getD j 0) n)).length) = Nt + 1
  simp

theorem solve_row_len (L T D : ℝ) (Nt Nx : ℕ) :
    ∀ row ∈ (HeatEquation.solve_heat_equation_euler L T D Nt Nx).2.2, row.length = Nx := by
  intro row hrow
  rw [show (HeatEquation.solve_heat_equation_euler L T D Nt Nx).2.2
      = (List.range (Nt + 1)).map fun n =>
        (List.range Nx).map
          (heatField (D * (T / (Nt : ℝ)) / (L / (Nx : ℝ)) ^ 2) (10 + 10) (10 - 10) Nx
            (fun j => (HeatEquation.init_conditions Nx L).2.1.getD j 0) n)
    from rfl] at hrow
  obtain ⟨n, _, rfl⟩ := List.mem_map.mp hrow
  simp

theorem linspace_getD (a b : ℝ) (n i : ℕ) (h : i < n) :
    (linspace a b n).getD i 0 = a + (b - a) * (i : ℝ) / ((n : ℝ) - 1) := by
  unfold linspace
  rw [getD_map_range _ _ _ _ h]

/-- Claim C4: for every input whose stability ratio exceeds `1/2`, both
steppers still run to completion and return a full `(Nt+1) × Nx` field —
the embedded bodies are total functions with no failure path, and the
shape is independent of the ratio; instability is surfaced only through
the separately reported ratio and verdict. -/
theorem unstable_runs_complete
    (U_init : ℕ → ℝ) (Nx Nt : ℕ) (L T D U1 U2 : ℝ)
    (L2 T2 D2 : ℝ) (Nt2 Nx2 : ℕ)
    (hr : 1 / 2 < D * (T / (Nt : ℝ)) / (L / ((Nx : ℝ) - 1)) ^ 2)
    (hr2 : 1 / 2 < D2 * (T2 / (Nt2 : ℝ)) / (L2 / (Nx2 : ℝ)) ^ 2) :
    (HeatEqFr.explicit_heat U_init Nx Nt L T D U1 U2).1.length = Nt + 1 ∧
    (∀ row ∈ (HeatEqFr.explicit_heat U_init Nx Nt L T D U1 U2).1, row.length = Nx) ∧
    (HeatEquation.solve_heat_equation_euler L2 T2 D2 Nt2 Nx2).2.2.length = Nt2 + 1 ∧
    (∀ row ∈ (HeatEquation.solve_heat_equation_euler L2 T2 D2 Nt2 Nx2).2.2,
      row.length = Nx2) :=
  ⟨explicit_heat_num_rows U_init Nx Nt L T D U1 U2,
    explicit_heat_row_len U_init Nx Nt L T D U1 U2,
    solve_num_rows L2 T2 D2 Nt2 Nx2, solve_row_len L2 T2 D2 Nt2 Nx2⟩

/-- Claim C4, witness: a concrete unstable run (`alpha = 40`,
`r = 90`). -/
theorem unstable_runs_complete_inst :
    ((1 : ℝ) / 2 < 10 * (1 / ((1 : ℕ) : ℝ)) / (1 / (((3 : ℕ) : ℝ) - 1)) ^ 2) ∧
    (HeatEqFr.explicit_heat (fun _ => (0 : ℝ)) 3 1 1 1 10 20 0).1.length = 1 + 1 :=
  ⟨by norm_num,
    (unstable_runs_complete (fun _ => (0 : ℝ)) 3 1 1 1 10 20 0 1 1 10 1 3
      (by norm_num) (by norm_num)).1⟩

/-- Claim C9: for all valid inputs (`Nt ≥ 1`, `Nx ≥ 3`) the returned
field has exactly `Nt+1` rows and `Nx` columns, and
`solve_heat_equation_euler`'s returned time grid has exactly `Nt+1`
evenly spaced values `t_i = i·(T/Nt)` running from `0` to `T`
inclusive. -/
theorem shape_and_time_grid
    (U_init : ℕ → ℝ) (Nx Nt : ℕ) (L T D U1 U2 : ℝ)
    (L2 T2 D2 : ℝ) (Nt2 Nx2 : ℕ)
    (hNt : 1 ≤ Nt) (hNx : 3 ≤ Nx) (hNt2 : 1 ≤ Nt2) (hNx2 : 3 ≤ Nx2) :
    (HeatEqFr.explicit_heat U_init Nx Nt L T D U1 U2).1.length = Nt + 1 ∧
    (∀ row ∈ (HeatEqFr.explicit_heat U_init Nx Nt L T D U1 U2).1, row.length = Nx) ∧
    (HeatEquation.solve_heat_equation_euler L2 T2 D2 Nt2 Nx2).2.2.length = Nt2 + 1 ∧
    (∀ row ∈ (HeatEquation.solve_heat_equation_euler L2 T2 D2 Nt2 Nx2).2.2,
      row.length = Nx2) ∧
    (HeatEquation.solve_heat_equation_euler L2 T2 D2 Nt2 Nx2).2.1.length = Nt2 + 1 ∧
    (∀ i ≤ Nt2, (HeatEquation.solve_heat_equation_euler L2 T2 D2 Nt2 Nx2).2.1.getD i 0
      = (i : ℝ) * (T2 / (Nt2 : ℝ))) ∧
    (HeatEquation.solve_heat_equation_euler L2 T2 D2 Nt2 Nx2).2.1.getD 0 0 = 0 ∧
    (HeatEquation.solve_heat_equation_euler L2 T2 D2 Nt2 Nx2).2.1.getD Nt2 0 = T2 := by
  have ht : (HeatEquation.solve_heat_equation_euler L2 T2 D2 Nt2 Nx2).2.1
      = linspace 0 T2 (Nt2 + 1) := rfl
  have hNt20 : ((Nt2 : ℝ)) ≠ 0 := Nat.cast_ne_zero.mpr (by omega)
  have hentry : ∀ i ≤ Nt2,
      (HeatEquation.solve_heat_equation_euler L2 T2 D2 Nt2 Nx2).2.1.getD i 0
        = (i : ℝ) * (T2 / (Nt2 : ℝ)) := by
    intro i hi
    rw [ht, linspace_getD _ _ _ _ (by omega)]
    have hcast : ((Nt2 + 1 : ℕ) : ℝ) - 1 = (Nt2 : ℝ) := by push_cast; ring
    rw [hcast]
    ring
  refine ⟨explicit_heat_num_rows U_init Nx Nt L T D U1 U2,
    explicit_heat_row_len U_init Nx Nt L T D U1 U2,
    solve_num_rows L2 T2 D2 Nt2 Nx2, solve_row_len L2 T2 D2 Nt2 Nx2,
    ?_, hentry, ?_, ?_⟩
  · rw [ht]
    simp [linspace]
  · rw [hentry 0 (by omega)]
    norm_num
  · rw [hentry Nt2 (le_refl Nt2)]
    field_simp

/-- Claim C9, witness: the shape facts applied to a concrete run. -/
theorem shape_and_time_grid_inst :
    ((1 : ℕ) ≤ 2 ∧ (3 : ℕ) ≤ 3) ∧
    (HeatEquation.solve_heat_equation_euler 1 1 (1 / 20) 2 3).2.1.getD 2 0 = 1 :=
  ⟨⟨by omega, by omega⟩,
    (shape_and_time_grid (fun _ => (0 : ℝ)) 3 2 1 1 1 20 0 1 1 (1 / 20) 2 3
      (by omega) (by omega) (by omega) (by omega)).2.2.2.2.2.2.2⟩

/-- Claim C7: for every run with stability ratio `r ≤ 1/2` (with positive
`L, T, D`, so `r ≥ 0`), every value in every row of the returned field
lies within `[min(U_left, U_right, min U0), max(U_left, U_right, max U0)]`
— the single-step update preserves the bound and it holds for all `Nt`
steps, for both steppers. -/
theorem max_principle
    (U_init : ℕ → ℝ) (Nx Nt : ℕ) (L T D U1 U2 : ℝ)
    (hNx : 3 ≤ Nx) (hNt : 1 ≤ Nt) (hL : 0 < L) (hT : 0 < T) (hD : 0 < D)
    (hstab : D * (T / (Nt : ℝ)) / (L / ((Nx : ℝ) - 1)) ^ 2 ≤ 1 / 2)
    (L2 T2 D2 : ℝ) (Nt2 Nx2 : ℕ)
    (hNx2 : 3 ≤ Nx2) (hNt2 : 1 ≤ Nt2) (hL2 : 0 < L2) (hT2 : 0 < T2) (hD2 : 0 < D2)
    (hstab2 : D2 * (T2 / (Nt2 : ℝ)) / (L2 / (Nx2 : ℝ)) ^ 2 ≤ 1 / 2) :
    (∀ row ∈ (HeatEqFr.explicit_heat U_init Nx Nt L T D U1 U2).1, ∀ v ∈ row,
      min U1 (min U2 ((Finset.range Nx).inf'
          ⟨0, Finset.mem_range.mpr (by omega)⟩ U_init)) ≤ v ∧
        v ≤ max U1 (max U2 ((Finset.range Nx).sup'
          ⟨0, Finset.mem_range.mpr (by omega)⟩ U_init))) ∧
    (∀ row ∈ (HeatEquation.solve_heat_equation_euler L2 T2 D2 Nt2 Nx2).2.2, ∀ v ∈ row,
      min 20 (min 0 ((Finset.range Nx2).inf' ⟨0, Finset.mem_range.mpr (by omega)⟩
          fun j => (HeatEquation.init_conditions Nx2 L2).2.1.getD j 0)) ≤ v ∧
        v ≤ max 20 (max 0 ((Finset.range Nx2).sup' ⟨0, Finset.mem_range.mpr (by omega)⟩
          fun j => (HeatEquation.init_conditions Nx2 L2).2.1.getD j 0))) := by
  constructor
  · set r : ℝ := D * (T / (Nt : ℝ)) / (L / ((Nx : ℝ) - 1)) ^ 2 with hr
    have hr0 : 0 ≤ r := by
      rw [hr]
      have h1 : (0 : ℝ) ≤ D * (T / (Nt : ℝ)) :=
        mul_nonneg hD.le (div_nonneg hT.le (Nat.cast_nonneg Nt))
      exact div_nonneg h1 (by positivity)
    set m : ℝ := min U1 (min U2 ((Finset.range Nx).inf'
        ⟨0, Finset.mem_range.mpr (by omega)⟩ U_init)) with hm
    set M : ℝ := max U1 (max U2 ((Finset.range Nx).sup'
        ⟨0, Finset.mem_range.mpr (by omega)⟩ U_init)) with hM
    have hbounds := @heatField_bounds ℝ _ r U1 U2 m M Nx U_init hr0 hstab
      (min_le_left _ _) (le_max_left _ _)
      (le_trans (min_le_right _ _) (min_le_left _ _))
      (le_trans (le_max_left _ _) (le_max_right _ _))
      (fun i hi => ⟨le_trans (min_le_right _ _) (le_trans (min_le_right _ _)
          (Finset.inf'_le _ (Finset.mem_range.mpr hi))),
        le_trans (Finset.le_sup' _ (Finset.mem_range.mpr hi))
          (le_trans (le_max_right _ _) (le_max_right _ _))⟩)
    intro row hrow v hv
    rw [show (HeatEqFr.explicit_heat U_init Nx Nt L T D U1 U2).1
        = (List.range (Nt + 1)).map fun n =>
          (List.range Nx).map (heatField r U1 U2 Nx U_init n) from rfl] at hrow
    obtain ⟨n, _, rfl⟩ := List.mem_map.mp hrow
    obtain ⟨i, hi, rfl⟩ := List.mem_map.mp hv
    exact hbounds n i (List.mem_range.mp hi)
  · set r : ℝ := D2 * (T2 / (Nt2 : ℝ)) / (L2 / (Nx2 : ℝ)) ^ 2 with hr
    have hr0 : 0 ≤ r := by
      rw [hr]
      have h1 : (0 : ℝ) ≤ D2 * (T2 / (Nt2 : ℝ)) :=
        mul_nonneg hD2.le (div_nonneg hT2.le (Nat.cast_nonneg Nt2))
      exact div_nonneg h1 (by positivity)
    set U0f : ℕ → ℝ := fun j => (HeatEquation.init_conditions Nx2 L2).2.1.getD j 0 with hU0f
    set m : ℝ := min 20 (min 0 ((Finset.range Nx2).inf'
        ⟨0, Finset.mem_range.mpr (by omega)⟩ U0f)) with hm
    set M : ℝ := max 20 (max 0 ((Finset.range Nx2).sup'
        ⟨0, Finset.mem_range.mpr (by omega)⟩ U0f)) with hM
    have hbounds := @heatField_bounds ℝ _ r ((10 : ℝ) + 10) ((10 : ℝ) - 10) m M Nx2 U0f
      hr0 hstab2
      (by rw [hm]; norm_num) (by rw [hM]; norm_num)
      (by rw [hm]; norm_num) (by rw [hM]; norm_num)
      (fun i hi => ⟨le_trans (min_le_right _ _) (le_trans (min_le_right _ _)
          (Finset.inf'_le _ (Finset.mem_range.mpr hi))),
        le_trans (Finset.le_sup' _ (Finset.mem_range.mpr hi))
          (le_trans (le_max_right _ _) (le_max_right _ _))⟩)
    intro row hrow v hv
    rw [show (HeatEquation.solve_heat_equation_euler L2 T2 D2 Nt2 Nx2).2.2
        = (List.range (Nt2 + 1)).map fun n =>
          (List.range Nx2).map (heatField r (10 + 10) (10 - 10) Nx2 U0f n) from rfl] at hrow
    obtain ⟨n, _, rfl⟩ := List.mem_map.mp hrow
    obtain ⟨i, hi, rfl⟩ := List.mem_map.mp hv
    exact hbounds n i (List.mem_range.mp hi)

/-- Claim C7, witness: the bound applied to a concrete stable run
(`alpha = 1/5 ≤ 1/2`). -/
theorem max_principle_inst :
    ((1 : ℝ) / 20 * (1 / ((1 : ℕ) : ℝ)) / ((1 : ℝ) / (((3 : ℕ) : ℝ) - 1)) ^ 2 ≤ 1 / 2) ∧
    (∀ row ∈ (HeatEqFr.explicit_heat (fun _ => (0 : ℝ)) 3 1 1 1 (1 / 20) 20 0).1, ∀ v ∈ row,
      min 20 (min 0 ((Finset.range 3).inf' ⟨0, Finset.mem_range.mpr (by norm_num)⟩
          fun _ => (0 : ℝ))) ≤ v ∧
        v ≤ max 20 (max 0 ((Finset.range 3).sup' ⟨0, Finset.mem_range.mpr (by norm_num)⟩
          fun _ => (0 : ℝ)))) :=
  ⟨by norm_num,
    (max_principle (fun _ => (0 : ℝ)) 3 1 1 1 (1 / 20) 20 0 (by omega) (by omega)
        (by norm_num) (by norm_num) (by norm_num) (by norm_num) 1 1 (1 / 20) 1 3
        (by omega) (by omega) (by norm_num) (by norm_num) (by norm_num) (by norm_num)).1⟩

theorem loopBody_u {α : Type*} [LinearOrderedField α] (a U1 U2 : α) (Nx : ℕ)
    (s : HeatEqFr.CallState α) :
    (HeatEqFr.loopBody a U1 U2 Nx s).u = stepRow a U1 U2 Nx s.u := rfl

theorem loopBody_uAll {α : Type*} [LinearOrderedField α] (a U1 U2 : α) (Nx : ℕ)
    (s : HeatEqFr.CallState α) :
    (HeatEqFr.loopBody a U1 U2 Nx s).uAll = s.uAll ++ [stepRow a U1 U2 Nx s.u] := rfl

theorem iterate_loopBody_buf {α : Type*} [LinearOrderedField α] (a U1 U2 : α) (Nx : ℕ) :
    ∀ (k : ℕ) (s : HeatEqFr.CallState α),
      ((HeatEqFr.loopBody a U1 U2 Nx)^[k] s).uInitBuf = s.uInitBuf := by
  intro k
  induction k with
  | zero => intro s; rfl
  | succ k ih =>
    intro s
    rw [Function.iterate_succ_apply]
    exact ih _

theorem iterate_loopBody_spec {α : Type*} [LinearOrderedField α]
    (a U1 U2 : α) (Nx : ℕ) (U0 buf : ℕ → α) :
    ∀ k : ℕ,
      ((HeatEqFr.loopBody a U1 U2 Nx)^[k]
          ⟨buf, HeatEqFr.npCopy U0, [HeatEqFr.npCopy U0]⟩).u
        = heatField a U1 U2 Nx U0 k ∧
      ((HeatEqFr.loopBody a U1 U2 Nx)^[k]
          ⟨buf, HeatEqFr.npCopy U0, [HeatEqFr.npCopy U0]⟩).uAll
        = (List.range (k + 1)).map (heatField a U1 U2 Nx U0) := by
  intro k
  induction k with
  | zero => exact ⟨rfl, rfl⟩
  | succ k ih =>
    rw [Function.iterate_succ_apply', loopBody_u, loopBody_uAll, ih.1, ih.2]
    refine ⟨rfl, ?_⟩
    rw [show stepRow a U1 U2 Nx (heatField a U1 U2 Nx U0 k)
        = heatField a U1 U2 Nx U0 (k + 1) from rfl]
    simp [List.range_succ]

/-- The state-passing embedding of a call of `explicit_heat` returns the
same `(U_all, alpha, dt)` as the direct embedding. -/
theorem explicit_heat_call_result {α : Type*} [LinearOrderedField α]
    (U_init : ℕ → α) (Nx Nt : ℕ) (L T D U1 U2 : α) :
    (HeatEqFr.explicit_heat_call U_init Nx Nt L T D U1 U2).2
      = HeatEqFr.explicit_heat U_init Nx Nt L T D U1 U2 := by
  show ((((HeatEqFr.loopBody (D * (T / (Nt : α)) / (L / ((Nx : α) - 1)) ^ 2) U1 U2 Nx)^[Nt]
      ⟨U_init, HeatEqFr.npCopy U_init, [HeatEqFr.npCopy U_init]⟩).uAll).map
        (fun row => (List.range Nx).map row),
      D * (T / (Nt : α)) / (L / ((Nx : α) - 1)) ^ 2, T / (Nt : α))
    = HeatEqFr.explicit_heat U_init Nx Nt L T D U1 U2
  rw [(iterate_loopBody_spec (D * (T / (Nt : α)) / (L / ((Nx : α) - 1)) ^ 2)
      U1 U2 Nx U_init U_init Nt).2,
    List.map_map]
  rfl

/-- Claim C8: `explicit_heat` never modifies the initial-profile array
passed to it: in the statement-level embedding of a call (which returns
the same result as the function, `explicit_heat_call_result`), the
caller's `U_init` buffer after the call is element-wise the array passed
in — no statement of the body writes into it; every write targets the
fresh copies `U`, `U_new` or the result array `U_all`. -/
theorem no_input_mutation (U_init : ℕ → ℝ) (Nx Nt : ℕ) (L T D U1 U2 : ℝ) :
    (HeatEqFr.explicit_heat_call U_init Nx Nt L T D U1 U2).1 = U_init := by
  show ((HeatEqFr.loopBody (D * (T / (Nt : ℝ)) / (L / ((Nx : ℝ) - 1)) ^ 2) U1 U2 Nx)^[Nt]
      ⟨U_init, HeatEqFr.npCopy U_init, [HeatEqFr.npCopy U_init]⟩).uInitBuf = U_init
  rw [iterate_loopBody_buf]

theorem init_conditions_x_getD (Nx : ℕ) (L : ℝ) (i : ℕ) (h : i < Nx) :
    (HeatEquation.init_conditions Nx L).1.getD i 0
      = 0 + (L - 0) * (i : ℝ) / ((Nx : ℝ) - 1) := by
  show (linspace (0 : ℝ) L Nx).getD i 0 = _
  unfold linspace
  rw [getD_map_range _ _ _ _ h]

/-- Claim C6 (amended): the `heat_eq_fr.py` builder follows the claimed
shape exactly — `initial_profile(x) = A - B·tanh((x - L/2)/scale)` with
`A = B = 10`, `L = 1`, `scale = 1/10`; the `heat_equation.py` builder
instead computes `U0[i] = A - B·tanh(c - x_i)` with `c = 0` at every grid
point, which is not of the claimed midpoint form. -/
theorem profile_formulas :
    (∀ xv : ℝ, HeatEqFr.initial_profile xv
        = 10 - 10 * Real.tanh ((xv - 1 / 2) / (1 / 10))) ∧
    ∀ (Nx : ℕ) (L : ℝ) (i : ℕ), i < Nx →
      (HeatEquation.init_conditions Nx L).2.1.getD i 0
        = 10 - 10 * Real.tanh (0 - (HeatEquation.init_conditions Nx L).1.getD i 0) := by
  constructor
  · intro xv
    show (HeatEqFr.A : ℝ) - (HeatEqFr.B : ℝ) *
        Real.tanh ((xv - (HeatEqFr.L : ℝ) / 2) / (0.1 : ℝ)) = _
    norm_num [HeatEqFr.A, HeatEqFr.B, HeatEqFr.L]
  · intro Nx L i h
    rw [init_conditions_U0_getD Nx L i h, init_conditions_x_getD Nx L i h]

/-- Claim C6, counterexample: no shape parameter `scale` makes the
`heat_equation.py` builder's profile equal
`A - B·tanh((x_i - L/2)/scale)` on the grid of `Nx = 3`, `L = 1`: at the
midpoint `x_1 = 1/2` the claimed form always yields `10 - 10·tanh(0) = 10`,
but the builder stores `10 - 10·tanh(-1/2) = 10 + 10·tanh(1/2) ≠ 10`. -/
theorem second_builder_not_midpoint_form :
    ¬ ∃ scale : ℝ, ∀ i < 3,
      (HeatEquation.init_conditions 3 1).2.1.getD i 0
        = 10 - 10 * Real.tanh
            (((HeatEquation.init_conditions 3 1).1.getD i 0 - 1 / 2) / scale) := by
  rintro ⟨s, h⟩
  have h1 := h 1 (by omega)
  rw [init_conditions_U0_getD 3 1 1 (by omega), init_conditions_x_getD 3 1 1 (by omega)] at h1
  rw [show (0 : ℝ) - (0 + ((1 : ℝ) - 0) * ((1 : ℕ) : ℝ) / (((3 : ℕ) : ℝ) - 1)) = -(1 / 2)
      by norm_num] at h1
  rw [show ((0 : ℝ) + ((1 : ℝ) - 0) * ((1 : ℕ) : ℝ) / (((3 : ℕ) : ℝ) - 1) - 1 / 2) / s = 0
      by norm_num] at h1
  rw [Real.tanh_neg, Real.tanh_zero] at h1
  have htpos : 0 < Real.tanh (1 / 2) := by
    rw [Real.tanh_eq_sinh_div_cosh]
    exact div_pos (Real.sinh_pos_iff.mpr (by norm_num)) (Real.cosh_pos _)
  linarith

/-- Claim C6, witness: the builder formulas applied at a concrete grid
point. -/
theorem profile_formulas_inst :
    (0 : ℕ) < 3 ∧
      (HeatEquation.init_conditions 3 1).2.1.getD 0 0
        = 10 - 10 * Real.tanh (0 - (HeatEquation.init_conditions 3 1).1.getD 0 0) :=
  ⟨by omega, profile_formulas.2 3 1 0 (by omega)⟩
